import Mathlib

/-!
Verification of the PvR multi-client chat server.

The repository contains three variants of the same chat server:
`week08` (one thread per connection), `week09` (single-threaded `mio`
event loop) and `week10` (tokio task per connection).  This file gives a
shallow embedding of the parts the specification talks about:

* the message types (`messages.rs`),
* the `week09` client registry (`Clients` in `src/week09/src/server/client.rs`)
  with its two `HashMap`s modelled as association lists,
* the `week09` per-readiness-event handler `handle_client`
  (`src/week09/src/server/client.rs`), with socket-write failures made
  explicit through a `FailSpec` parameter and every attempted send
  recorded as an `Out`,
* the `week09` server loop (`src/week09/src/server.rs`) as a step
  function over events (accept, readiness, time passing, the join-timeout
  sweep, the `END` shutdown event),
* the `week10` registry (`Clients` in `src/week10/src/client.rs`), whose
  `add_client` is the spec's `try_add`.

Theorems about these definitions settle the specification claims.
-/

/-- The `mio` token identifying a connection; the code uses the raw fd. -/
abbrev Token := Nat

/-- `ClientToServerMsg` from `messages.rs` (variants as used by the servers).
The Rust field `to` is a Lean keyword, so it is called `toUser` here. -/
inductive ClientToServerMsg where
  | Join (name : String)
  | Ping
  | ListUsers
  | SendDM (toUser message : String)
  | Broadcast (message : String)
deriving DecidableEq

/-- `ServerToClientMsg` from `messages.rs`.  The Rust field `from` is a Lean
keyword, so it is called `sender` here. -/
inductive ServerToClientMsg where
  | Welcome
  | Pong
  | UserList (users : List String)
  | Message (sender message : String)
  | Error (text : String)
deriving DecidableEq

/-- Result of one `client.read_message()` call
(`Option<std::io::Result<ClientToServerMsg>>` in Rust). -/
inductive ReadResult where
  | eof
  | wouldBlock
  | ioErr
  | msg (m : ClientToServerMsg)
deriving DecidableEq

section AssocMap

variable {κ : Type} {β : Type} [DecidableEq κ]

/-- `HashMap::get` on an association-list model of a hash map. -/
def hmGet (k : κ) : List (κ × β) → Option β
  | [] => none
  | p :: rest => if p.1 = k then some p.2 else hmGet k rest

/-- `HashMap::remove` (key erasure; the maps built here never hold a key
twice, so erasing every binding of the key coincides with removing the one
binding). -/
def hmErase (k : κ) : List (κ × β) → List (κ × β)
  | [] => []
  | p :: rest => if p.1 = k then hmErase k rest else p :: hmErase k rest

/-- `HashMap::insert` (replacing any previous binding of the key). -/
def hmInsert (k : κ) (v : β) (m : List (κ × β)) : List (κ × β) :=
  (k, v) :: hmErase k m

/-- `HashMap::contains_key`. -/
def hmContains (k : κ) (m : List (κ × β)) : Bool :=
  (hmGet k m).isSome

/-- The keys of the map, in list order. -/
def hmKeys (m : List (κ × β)) : List κ :=
  m.map Prod.fst

theorem mem_hmErase {p : κ × β} {k : κ} {m : List (κ × β)} :
    p ∈ hmErase k m ↔ p ∈ m ∧ p.1 ≠ k := by
  induction m with
  | nil => simp [hmErase]
  | cons q rest ih =>
    by_cases hq : q.1 = k
    · simp only [hmErase, if_pos hq, ih, List.mem_cons]
      constructor
      · exact fun ⟨h1, h2⟩ => ⟨Or.inr h1, h2⟩
      · rintro ⟨h1 | h1, h2⟩
        · exact absurd (h1 ▸ hq) h2
        · exact ⟨h1, h2⟩
    · simp only [hmErase, if_neg hq, List.mem_cons, ih]
      constructor
      · rintro (h | ⟨h1, h2⟩)
        · exact ⟨Or.inl h, h ▸ hq⟩
        · exact ⟨Or.inr h1, h2⟩
      · rintro ⟨h1 | h1, h2⟩
        · exact Or.inl h1
        · exact Or.inr ⟨h1, h2⟩

theorem hmErase_sublist (k : κ) (m : List (κ × β)) :
    (hmErase k m).Sublist m := by
  induction m with
  | nil => simp [hmErase]
  | cons q rest ih =>
    by_cases hq : q.1 = k
    · simp only [hmErase, if_pos hq]
      exact ih.cons q
    · simp only [hmErase, if_neg hq]
      exact ih.cons₂ q

theorem hmGet_erase_self (k : κ) (m : List (κ × β)) :
    hmGet k (hmErase k m) = none := by
  induction m with
  | nil => rfl
  | cons q rest ih =>
    by_cases hq : q.1 = k
    · simpa [hmErase, hq] using ih
    · simpa [hmErase, hmGet, hq] using ih

theorem hmGet_erase_ne {k' k : κ} (h : k' ≠ k) (m : List (κ × β)) :
    hmGet k' (hmErase k m) = hmGet k' m := by
  induction m with
  | nil => rfl
  | cons q rest ih =>
    simp only [hmErase, hmGet]
    by_cases hq : q.1 = k
    · have hq' : ¬ q.1 = k' := by
        rw [hq]
        exact fun hc => h hc.symm
      rw [if_pos hq, if_neg hq', ih]
    · rw [if_neg hq]
      simp only [hmGet]
      by_cases hq' : q.1 = k'
      · rw [if_pos hq', if_pos hq']
      · rw [if_neg hq', if_neg hq', ih]

theorem hmGet_insert_self (k : κ) (v : β) (m : List (κ × β)) :
    hmGet k (hmInsert k v m) = some v := by
  simp [hmInsert, hmGet]

theorem hmGet_insert_ne {k' k : κ} (h : k' ≠ k) (v : β) (m : List (κ × β)) :
    hmGet k' (hmInsert k v m) = hmGet k' m := by
  have hk : ¬ k = k' := fun hc => h hc.symm
  simp [hmInsert, hmGet, hk, hmGet_erase_ne h]

theorem mem_of_hmGet_eq_some {k : κ} {v : β} {m : List (κ × β)}
    (h : hmGet k m = some v) : (k, v) ∈ m := by
  induction m with
  | nil => simp [hmGet] at h
  | cons q rest ih =>
    obtain ⟨a, b⟩ := q
    by_cases hq : a = k
    · subst hq
      rw [hmGet, if_pos rfl] at h
      injection h with h
      subst h
      exact List.mem_cons_self _ _
    · rw [hmGet, if_neg hq] at h
      exact List.mem_cons_of_mem _ (ih h)

theorem mem_keys_of_hmGet_eq_some {k : κ} {v : β} {m : List (κ × β)}
    (h : hmGet k m = some v) : k ∈ hmKeys m := by
  simpa [hmKeys] using List.mem_map_of_mem Prod.fst (mem_of_hmGet_eq_some h)

theorem hmGet_eq_none_of_not_mem_keys {k : κ} {m : List (κ × β)}
    (h : k ∉ hmKeys m) : hmGet k m = none := by
  induction m with
  | nil => rfl
  | cons q rest ih =>
    obtain ⟨a, b⟩ := q
    simp only [hmKeys, List.map_cons, List.mem_cons, not_or] at h
    have ha : ¬ a = k := fun hc => h.1 hc.symm
    rw [hmGet, if_neg ha]
    exact ih (by simpa [hmKeys] using h.2)

theorem hmGet_eq_some_of_mem {k : κ} {v : β} {m : List (κ × β)}
    (hn : (hmKeys m).Nodup) (h : (k, v) ∈ m) : hmGet k m = some v := by
  induction m with
  | nil => cases h
  | cons q rest ih =>
    obtain ⟨a, b⟩ := q
    simp only [hmKeys, List.map_cons, List.nodup_cons] at hn
    rcases List.mem_cons.mp h with h | h
    · injection h with h1 h2
      subst h1
      subst h2
      simp [hmGet]
    · have ha : ¬ a = k := by
        intro hc
        subst hc
        exact hn.1 (by simpa [hmKeys] using List.mem_map_of_mem Prod.fst h)
      rw [hmGet, if_neg ha]
      exact ih hn.2 h

theorem nodup_keys_erase {k : κ} {m : List (κ × β)}
    (hn : (hmKeys m).Nodup) : (hmKeys (hmErase k m)).Nodup := by
  exact (List.Sublist.map Prod.fst (hmErase_sublist k m)).nodup hn

theorem not_mem_keys_erase_self (k : κ) (m : List (κ × β)) :
    k ∉ hmKeys (hmErase k m) := by
  intro h
  simp only [hmKeys, List.mem_map] at h
  rcases h with ⟨p, hp, hfst⟩
  exact (mem_hmErase.mp hp).2 hfst

theorem nodup_keys_insert {k : κ} {v : β} {m : List (κ × β)}
    (hn : (hmKeys m).Nodup) : (hmKeys (hmInsert k v m)).Nodup := by
  simp only [hmInsert, hmKeys, List.map_cons, List.nodup_cons]
  exact ⟨not_mem_keys_erase_self k m, nodup_keys_erase hn⟩

end AssocMap

/-- The protocol-relevant state of a `week09` `Client`
(`src/week09/src/server/client.rs`): the optional username and the
`logged_in` instant (the time of connection accept, as a `Nat` timestamp). -/
structure Client where
  username : Option String
  loggedIn : Nat
deriving DecidableEq

/-- `Client::new`: no username, `logged_in` set to the accept time. -/
def Client.new (now : Nat) : Client :=
  { username := none, loggedIn := now }

/-- `Client::active`: time since the connection was established
(`self.logged_in.elapsed()`; `Nat` subtraction saturates like `Instant`). -/
def Client.active (cl : Client) (now : Nat) : Nat :=
  now - cl.loggedIn

/-- `Client::set_username`. -/
def Client.set_username (cl : Client) (u : String) : Client :=
  { cl with username := some u }

/-- The `week09` `Clients` registry: `usernames: HashMap<String, Token>` and
`data: HashMap<Token, Client>`. -/
structure Clients where
  usernames : List (String × Token)
  data : List (Token × Client)
deriving DecidableEq

def Clients.empty : Clients :=
  { usernames := [], data := [] }

/-- `Clients::exists`. -/
def Clients.existsName (c : Clients) (username : String) : Bool :=
  hmContains username c.usernames

/-- `Clients::insert`: a named client whose name is taken is handed back
unchanged; otherwise the username (when present) is recorded and the client
stored under its token.  The second component is the Rust return value:
`Some(client)` when rejected, otherwise the previous `data` binding. -/
def Clients.insert (c : Clients) (token : Token) (client : Client) :
    Clients × Option Client :=
  match client.username with
  | some u =>
    if hmContains u c.usernames then (c, some client)
    else
      ({ usernames := hmInsert u token c.usernames,
         data := hmInsert token client c.data },
       hmGet token c.data)
  | none =>
      ({ c with data := hmInsert token client c.data }, hmGet token c.data)

/-- `Clients::get_mut`, reduced to the token of the addressed client
(messages sent through the returned handle go to that token's socket). -/
def Clients.getTok (c : Clients) (username : String) : Option Token :=
  match hmGet username c.usernames with
  | none => none
  | some t =>
    match hmGet t c.data with
    | none => none
    | some _ => some t

/-- `Clients::remove`: drop the token's session and, when it was named,
its username binding. -/
def Clients.remove (c : Clients) (token : Token) : Clients × Option Client :=
  match hmGet token c.data with
  | none => (c, none)
  | some client =>
    ({ usernames :=
         match client.username with
         | some u => hmErase u c.usernames
         | none => c.usernames,
       data := hmErase token c.data },
     some client)

/-- `Clients::len`. -/
def Clients.len (c : Clients) : Nat :=
  c.data.length

/-- `Clients::unnamed` (unauthenticated sessions). -/
def Clients.unnamedList (c : Clients) : List (Token × Client) :=
  c.data.filter (fun q => q.2.username.isNone)

/-- `Clients::named` (authenticated sessions). -/
def Clients.namedList (c : Clients) : List (Token × Client) :=
  c.data.filter (fun q => q.2.username.isSome)

/-- `Clients::get_usernames_list`. -/
def Clients.get_usernames_list (c : Clients) : List String :=
  hmKeys c.usernames

/-- `Clients::drain`: iterate the `usernames` map, removing each named
session from `data`; `usernames` ends empty and unnamed sessions stay in
`data`.  Returns the new registry and the drained tokens. -/
def Clients.drainNamed (c : Clients) : Clients × List Token :=
  let toks := c.usernames.map Prod.snd
  ({ usernames := [],
     data := toks.foldl (fun d t => hmErase t d) c.data },
   toks)

/-- Destination of one attempted socket write during `handle_client`:
the client being handled, or a registry client addressed by token. -/
inductive Dest where
  | toSelf
  | toPeer (t : Token)
deriving DecidableEq

/-- One attempted `send_message`, with whether the write succeeded. -/
structure Out where
  dest : Dest
  msg : ServerToClientMsg
  delivered : Bool
deriving DecidableEq

/-- Which socket writes fail; write failures are environment behaviour.
`noFail` is the run in which every write succeeds. -/
structure FailSpec where
  selfF : Bool
  peerF : Token → Bool

def noFail : FailSpec :=
  { selfF := false, peerF := fun _ => false }

def FailSpec.ok (f : FailSpec) : Dest → Bool
  | .toSelf => !f.selfF
  | .toPeer t => !f.peerF t

def mkOut (f : FailSpec) (d : Dest) (m : ServerToClientMsg) : Out :=
  { dest := d, msg := m, delivered := f.ok d }

/-- Insertion into an ascending list; `sortStrings` models `Vec::sort`
(its ordering is irrelevant to the claims, only its membership). -/
def insertSorted (x : String) : List String → List String
  | [] => [x]
  | y :: ys => if x ≤ y then x :: y :: ys else y :: insertSorted x ys

def sortStrings : List String → List String
  | [] => []
  | x :: xs => insertSorted x (sortStrings xs)

/-- The broadcast loop body of `handle_client`: send `Message` to each named
registry client in turn; the `?` operator aborts `handle_client` at the first
failed write, so later targets are not attempted. -/
def broadcastOuts (f : FailSpec) (fromU msgText : String) :
    List (Token × Client) → List Out × Bool
  | [] => ([], true)
  | q :: rest =>
    let o := mkOut f (.toPeer q.1) (.Message fromU msgText)
    if o.delivered then
      let r := broadcastOuts f fromU msgText rest
      (o :: r.1, r.2)
    else ([o], false)

/-- The message loop of `week09::handle_client` for a named client: process
read results until `WouldBlock` keeps the session and EOF/IO-error drops it.
`client.username().unwrap()` is modelled by `getD ""`; the loop is only
entered once the client is named.  An exhausted input list stands for the
socket having no further bytes, which `read_message` reports as
`WouldBlock`. -/
def processLoop (f : FailSpec) (clients : Clients) (cl : Client) :
    List ReadResult → Option Client × List Out
  | [] => (some cl, [])
  | .wouldBlock :: _ => (some cl, [])
  | .eof :: _ => (none, [])
  | .ioErr :: _ => (none, [])
  | .msg m :: rest =>
    match m with
    | .Join _ =>
      (none, [mkOut f .toSelf (.Error "Unexpected message received")])
    | .Ping =>
      let o := mkOut f .toSelf .Pong
      if o.delivered then
        let r := processLoop f clients cl rest
        (r.1, o :: r.2)
      else (none, [o])
    | .ListUsers =>
      let users := sortStrings (clients.get_usernames_list ++ [cl.username.getD ""])
      let o := mkOut f .toSelf (.UserList users)
      if o.delivered then
        let r := processLoop f clients cl rest
        (r.1, o :: r.2)
      else (none, [o])
    | .SendDM toU msgText =>
      let fromU := cl.username.getD ""
      if toU = fromU then
        let o := mkOut f .toSelf (.Error "Cannot send a DM to yourself")
        if o.delivered then
          let r := processLoop f clients cl rest
          (r.1, o :: r.2)
        else (none, [o])
      else
        match clients.getTok toU with
        | some t =>
          let o := mkOut f (.toPeer t) (.Message fromU msgText)
          if o.delivered then
            let r := processLoop f clients cl rest
            (r.1, o :: r.2)
          else (none, [o])
        | none =>
          let o := mkOut f .toSelf (.Error ("User " ++ toU ++ " does not exist"))
          if o.delivered then
            let r := processLoop f clients cl rest
            (r.1, o :: r.2)
          else (none, [o])
    | .Broadcast msgText =>
      let fromU := cl.username.getD ""
      let b := broadcastOuts f fromU msgText clients.namedList
      if b.2 then
        let r := processLoop f clients cl rest
        (r.1, b.1 ++ r.2)
      else (none, b.1)

/-- `week09::handle_client`: the join phase for an unauthenticated client,
then the message loop.  Returns the client to keep polling (`some`) or
`none` when the session ended, plus every attempted write. -/
def handleClient (f : FailSpec) (clients : Clients) (cl : Client)
    (inputs : List ReadResult) : Option Client × List Out :=
  match cl.username with
  | some _ => processLoop f clients cl inputs
  | none =>
    match inputs with
    | [] => (some cl, [])
    | .wouldBlock :: _ => (some cl, [])
    | .msg (.Join name) :: rest =>
      if clients.existsName name then
        (none, [mkOut f .toSelf (.Error "Username already taken")])
      else
        let cl' := cl.set_username name
        let o := mkOut f .toSelf .Welcome
        if o.delivered then
          let r := processLoop f clients cl' rest
          (r.1, o :: r.2)
        else (none, [o])
    | _ :: _ =>
      (none, [mkOut f .toSelf (.Error "Unexpected message received")])

/-- `TIMEOUT_DURATION` from `src/week09/src/server.rs` (2 seconds). -/
def TIMEOUT_DURATION : Nat := 2

/-- The `server_loop` state: the registry plus the current time. -/
structure ServerSt where
  clients : Clients
  now : Nat
deriving DecidableEq

def ServerSt.init : ServerSt :=
  { clients := Clients.empty, now := 0 }

/-- A write attempt addressed to a concrete connection's socket. -/
structure Delivery where
  toTok : Token
  msg : ServerToClientMsg
  delivered : Bool
deriving DecidableEq

/-- Address an `Out` of `handle_client` run for token `t`. -/
def liftOut (t : Token) (o : Out) : Delivery :=
  match o.dest with
  | .toSelf => { toTok := t, msg := o.msg, delivered := o.delivered }
  | .toPeer t' => { toTok := t', msg := o.msg, delivered := o.delivered }

/-- Tokens collected by the join-timeout scan at the end of a loop
iteration: unauthenticated sessions whose connection is at least
`TIMEOUT_DURATION` old. -/
def sweepTokens (s : ServerSt) : List Token :=
  hmKeys (s.clients.data.filter
    (fun q => q.2.username.isNone && decide (TIMEOUT_DURATION ≤ q.2.active s.now)))

/-- Remove each listed token and disconnect it with the join-timeout error;
a token no longer present is skipped (`continue`). -/
def removeAll (c : Clients) : List Token → Clients × List Delivery
  | [] => (c, [])
  | t :: ts =>
    match c.remove t with
    | (c', some _) =>
      let r := removeAll c' ts
      (r.1,
       { toTok := t, msg := .Error "Timed out waiting for Join", delivered := true } :: r.2)
    | (_, none) => removeAll c ts

/-- The events one iteration of `server_loop` reacts to. -/
inductive Ev where
  | accept (t : Token)
  | ready (t : Token) (f : FailSpec) (inputs : List ReadResult)
  | tick (d : Nat)
  | sweep
  | shutdown

/-- One `server_loop` reaction (`src/week09/src/server.rs`): accepting a
connection (with the capacity check), a readiness event for a client token
(remove, `handle_client`, re-insert when the session survives), time
passing, the join-timeout sweep, and the `END` shutdown event (drain the
named sessions and stop). -/
def step (maxClients : Nat) (s : ServerSt) : Ev → ServerSt × List Delivery
  | .accept t =>
    let cl := Client.new s.now
    if maxClients ≤ s.clients.len then
      (s, [{ toTok := t, msg := .Error "Server is full", delivered := true }])
    else
      ({ clients := (s.clients.insert t cl).1, now := s.now }, [])
  | .ready t f inputs =>
    match s.clients.remove t with
    | (_, none) => (s, [])
    | (c', some cl) =>
      let r := handleClient f c' cl inputs
      let c'' :=
        match r.1 with
        | some cl' => (c'.insert t cl').1
        | none => c'
      ({ clients := c'', now := s.now }, r.2.map (liftOut t))
  | .tick d => ({ clients := s.clients, now := s.now + d }, [])
  | .sweep =>
    let r := removeAll s.clients (sweepTokens s)
    ({ clients := r.1, now := s.now }, r.2)
  | .shutdown =>
    ({ clients := s.clients.drainNamed.1, now := s.now }, [])

/-- Side conditions the runtime guarantees: a freshly accepted connection's
fd-token is not the token of any live session. -/
def WfEv (s : ServerSt) : Ev → Prop
  | .accept t => hmGet t s.clients.data = none
  | _ => True

/-- Server states reachable from the empty initial state. -/
inductive Reach (maxClients : Nat) : ServerSt → Prop
  | init : Reach maxClients ServerSt.init
  | next {s : ServerSt} {e : Ev} : Reach maxClients s → WfEv s e →
      Reach maxClients (step maxClients s e).1

section AssocMapMore

variable {κ : Type} {β : Type} [DecidableEq κ]

theorem mem_hmInsert {p : κ × β} {k : κ} {v : β} {m : List (κ × β)} :
    p ∈ hmInsert k v m ↔ p = (k, v) ∨ (p ∈ m ∧ p.1 ≠ k) := by
  simp [hmInsert, List.mem_cons, mem_hmErase]

theorem foldl_erase_sublist (toks : List κ) (d : List (κ × β)) :
    (toks.foldl (fun d t => hmErase t d) d).Sublist d := by
  induction toks generalizing d with
  | nil => simp
  | cons t ts ih => exact (ih (hmErase t d)).trans (hmErase_sublist t d)

theorem mem_foldl_erase {q : κ × β} {toks : List κ} {d : List (κ × β)} :
    q ∈ toks.foldl (fun d t => hmErase t d) d ↔ q ∈ d ∧ q.1 ∉ toks := by
  induction toks generalizing d with
  | nil => simp
  | cons t ts ih =>
    simp only [List.foldl_cons, ih, mem_hmErase, List.mem_cons, not_or]
    constructor
    · rintro ⟨⟨h1, h2⟩, h3⟩
      exact ⟨h1, h2, h3⟩
    · rintro ⟨h1, h2, h3⟩
      exact ⟨⟨h1, h2⟩, h3⟩

end AssocMapMore

/-- Well-formedness of a `usernames` entry: it points at a stored session
carrying exactly that username. -/
def userEntryOk (c : Clients) (p : String × Token) : Prop :=
  ∃ cl, hmGet p.2 c.data = some cl ∧ cl.username = some p.1

instance (c : Clients) (p : String × Token) : Decidable (userEntryOk c p) :=
  match h : hmGet p.2 c.data with
  | some cl =>
    if hu : cl.username = some p.1 then
      .isTrue ⟨cl, h, hu⟩
    else
      .isFalse (by
        rintro ⟨cl', h', hu'⟩
        rw [h] at h'
        injection h' with he
        rw [← he] at hu'
        exact hu hu')
  | none =>
    .isFalse (by
      rintro ⟨cl', h', _⟩
      rw [h] at h'
      cases h')

/-- Well-formedness of a `data` entry: a named session is registered under
its username at its own token. -/
def dataEntryOk (c : Clients) (q : Token × Client) : Prop :=
  ∀ u, q.2.username = some u → hmGet u c.usernames = some q.1

instance (c : Clients) (q : Token × Client) : Decidable (dataEntryOk c q) :=
  match h : q.2.username with
  | none =>
    .isTrue (by
      intro u hu
      rw [h] at hu
      cases hu)
  | some u0 =>
    if hg : hmGet u0 c.usernames = some q.1 then
      .isTrue (by
        intro u hu
        rw [h] at hu
        injection hu with he
        exact he ▸ hg)
    else
      .isFalse (fun hd => hg (hd u0 h))

/-- The registry invariant of the `week09` server: the two maps are mutual
indexes of each other (every registered username names a stored, named
session at its token; every named session is registered at its own token),
and neither map binds a key twice. -/
def RegInv (c : Clients) : Prop :=
  (∀ p ∈ c.usernames, userEntryOk c p) ∧
  (∀ q ∈ c.data, dataEntryOk c q) ∧
  (hmKeys c.usernames).Nodup ∧
  (hmKeys c.data).Nodup

instance (c : Clients) : Decidable (RegInv c) := by
  unfold RegInv
  infer_instance

theorem RegInv.lookup_user {c : Clients} (h : RegInv c) {u : String} {t : Token}
    (hu : hmGet u c.usernames = some t) :
    ∃ cl, hmGet t c.data = some cl ∧ cl.username = some u :=
  h.1 (u, t) (mem_of_hmGet_eq_some hu)

theorem RegInv.lookup_data {c : Clients} (h : RegInv c) {t : Token} {cl : Client}
    {u : String} (hd : hmGet t c.data = some cl) (hu : cl.username = some u) :
    hmGet u c.usernames = some t :=
  h.2.1 (t, cl) (mem_of_hmGet_eq_some hd) u hu

theorem regInv_empty : RegInv Clients.empty := by
  refine ⟨?_, ?_, ?_, ?_⟩ <;> simp [Clients.empty, hmKeys]

theorem get_data_remove_self (c : Clients) (t : Token) :
    hmGet t (c.remove t).1.data = none := by
  rcases hg : hmGet t c.data with _ | cl
  · simp [Clients.remove, hg]
  · simp [Clients.remove, hg, hmGet_erase_self]

theorem get_data_remove_ne {c : Clients} {t' t : Token} (h : t' ≠ t) :
    hmGet t' (c.remove t).1.data = hmGet t' c.data := by
  rcases hg : hmGet t c.data with _ | cl
  · simp [Clients.remove, hg]
  · simp [Clients.remove, hg, hmGet_erase_ne h]

theorem usernames_remove_unnamed {c : Clients} {t : Token} {cl : Client}
    (hg : hmGet t c.data = some cl) (hu : cl.username = none) :
    (c.remove t).1.usernames = c.usernames := by
  simp [Clients.remove, hg, hu]

theorem usernames_remove_named {c : Clients} {t : Token} {cl : Client}
    {u : String} (hg : hmGet t c.data = some cl) (hu : cl.username = some u) :
    (c.remove t).1.usernames = hmErase u c.usernames := by
  simp [Clients.remove, hg, hu]

theorem RegInv.remove {c : Clients} (h : RegInv c) (t : Token) :
    RegInv (c.remove t).1 := by
  obtain ⟨h1, h2, h3, h4⟩ := h
  rcases hg : hmGet t c.data with _ | cl
  · simpa [Clients.remove, hg] using ⟨h1, h2, h3, h4⟩
  · rcases hu : cl.username with _ | u
    · rw [Clients.remove, hg]
      simp only [hu]
      refine ⟨?_, ?_, h3, nodup_keys_erase h4⟩
      · intro p hp
        obtain ⟨cl', hcl', hname⟩ := h1 p hp
        have hne : p.2 ≠ t := by
          intro hc
          rw [hc, hg] at hcl'
          injection hcl' with he
          rw [← he, hu] at hname
          cases hname
        exact ⟨cl', by rwa [hmGet_erase_ne hne], hname⟩
      · intro q hq u' hu'
        exact h2 q (mem_hmErase.mp hq).1 u' hu'
    · rw [Clients.remove, hg]
      simp only [hu]
      have htu : hmGet u c.usernames = some t :=
        h2 (t, cl) (mem_of_hmGet_eq_some hg) u hu
      refine ⟨?_, ?_, nodup_keys_erase h3, nodup_keys_erase h4⟩
      · intro p hp
        obtain ⟨hpmem, hpne⟩ := mem_hmErase.mp hp
        obtain ⟨cl', hcl', hname⟩ := h1 p hpmem
        have hne : p.2 ≠ t := by
          intro hc
          rw [hc, hg] at hcl'
          injection hcl' with he
          rw [← he, hu] at hname
          injection hname with hnn
          exact hpne hnn.symm
        exact ⟨cl', by rwa [hmGet_erase_ne hne], hname⟩
      · intro q hq u' hu'
        obtain ⟨hqmem, hqne⟩ := mem_hmErase.mp hq
        have hold := h2 q hqmem u' hu'
        have hneu : u' ≠ u := by
          intro hc
          rw [hc] at hold
          rw [hold] at htu
          injection htu with he
          exact hqne he
        rwa [hmGet_erase_ne hneu]

theorem RegInv.insertFresh {c : Clients} (h : RegInv c) {t : Token} (cl : Client)
    (hfresh : hmGet t c.data = none) :
    RegInv (c.insert t cl).1 := by
  obtain ⟨h1, h2, h3, h4⟩ := h
  rcases hu : cl.username with _ | u
  · rw [Clients.insert]
    simp only [hu]
    refine ⟨?_, ?_, h3, nodup_keys_insert h4⟩
    · intro p hp
      obtain ⟨cl', hcl', hname⟩ := h1 p hp
      have hne : p.2 ≠ t := by
        intro hc
        rw [hc, hfresh] at hcl'
        cases hcl'
      exact ⟨cl', by rwa [hmGet_insert_ne hne], hname⟩
    · intro q hq u' hu'
      rcases mem_hmInsert.mp hq with hq | ⟨hqmem, _⟩
      · rw [hq] at hu'
        simp only at hu'
        rw [hu] at hu'
        cases hu'
      · exact h2 q hqmem u' hu'
  · rw [Clients.insert]
    simp only [hu]
    by_cases htaken : hmContains u c.usernames
    · rw [if_pos htaken]
      exact ⟨h1, h2, h3, h4⟩
    · rw [if_neg htaken]
      have hufree : hmGet u c.usernames = none := by
        rcases hx : hmGet u c.usernames with _ | t'
        · rfl
        · exact absurd (by simp [hmContains, hx]) htaken
      refine ⟨?_, ?_, nodup_keys_insert h3, nodup_keys_insert h4⟩
      · intro p hp
        rcases mem_hmInsert.mp hp with hp | ⟨hpmem, hpne⟩
        · rw [hp]
          exact ⟨cl, hmGet_insert_self t cl c.data, hu⟩
        · obtain ⟨cl', hcl', hname⟩ := h1 p hpmem
          have hne : p.2 ≠ t := by
            intro hc
            rw [hc, hfresh] at hcl'
            cases hcl'
          exact ⟨cl', by rwa [hmGet_insert_ne hne], hname⟩
      · intro q hq u' hu'
        rcases mem_hmInsert.mp hq with hq | ⟨hqmem, hqne⟩
        · rw [hq] at hu' ⊢
          simp only at hu' ⊢
          rw [hu] at hu'
          injection hu' with he
          rw [← he]
          exact hmGet_insert_self u t c.usernames
        · have hold := h2 q hqmem u' hu'
          have hneu : u' ≠ u := by
            intro hc
            rw [hc, hufree] at hold
            cases hold
          rwa [hmGet_insert_ne hneu]

theorem RegInv.removeAllPres {c : Clients} (h : RegInv c) (ts : List Token) :
    RegInv (removeAll c ts).1 := by
  induction ts generalizing c with
  | nil => simpa [removeAll] using h
  | cons t ts ih =>
    rcases hr : c.remove t with ⟨c', ocl⟩
    have hc' : RegInv c' := by
      have := h.remove t
      rwa [hr] at this
    cases ocl with
    | none =>
      simp only [removeAll, hr]
      exact ih h
    | some cl =>
      simp only [removeAll, hr]
      exact ih hc'

theorem RegInv.drain {c : Clients} (h : RegInv c) : RegInv c.drainNamed.1 := by
  refine ⟨?_, ?_, ?_, ?_⟩
  · intro p hp
    simp [Clients.drainNamed] at hp
  · intro q hq u hu
    simp only [Clients.drainNamed] at hq
    exfalso
    obtain ⟨hqd, hnt⟩ := mem_foldl_erase.mp hq
    have hreg := h.2.1 q hqd u hu
    have hmem : q.1 ∈ c.usernames.map Prod.snd :=
      List.mem_map_of_mem Prod.snd (mem_of_hmGet_eq_some hreg)
    exact hnt hmem
  · simp [Clients.drainNamed, hmKeys]
  · exact ((foldl_erase_sublist _ _).map Prod.fst).nodup h.2.2.2

/-- Every reachable server state satisfies the registry invariant. -/
theorem reach_inv {maxClients : Nat} {s : ServerSt} (h : Reach maxClients s) :
    RegInv s.clients := by
  induction h with
  | init => exact regInv_empty
  | next hr hwf ih =>
    rename_i s e
    cases e with
    | accept t =>
      by_cases hcap : maxClients ≤ s.clients.len
      · simpa [step, hcap] using ih
      · simp only [step, if_neg hcap]
        exact ih.insertFresh (Client.new s.now) hwf
    | ready t f ins =>
      rcases hrem : s.clients.remove t with ⟨c', ocl⟩
      have hc' : RegInv c' := by
        have := ih.remove t
        rwa [hrem] at this
      cases ocl with
      | none => simpa [step, hrem] using ih
      | some cl =>
        simp only [step, hrem]
        rcases hres : (handleClient f c' cl ins).1 with _ | cl'
        · simpa [hres] using hc'
        · simp only [hres]
          have hfresh : hmGet t c'.data = none := by
            have := get_data_remove_self s.clients t
            rwa [hrem] at this
          exact hc'.insertFresh cl' hfresh
    | tick d => simpa [step] using ih
    | sweep =>
      simp only [step]
      exact ih.removeAllPres (sweepTokens s)
    | shutdown =>
      simp only [step]
      exact ih.drain

theorem remove_snd (c : Clients) (t : Token) :
    (c.remove t).2 = hmGet t c.data := by
  rcases hg : hmGet t c.data with _ | cl <;> simp [Clients.remove, hg]

theorem insert_named_free {c : Clients} {t : Token} {cl : Client} {u : String}
    (hu : cl.username = some u) (hfree : hmGet u c.usernames = none) :
    (c.insert t cl).1 =
      { usernames := hmInsert u t c.usernames, data := hmInsert t cl c.data } := by
  simp [Clients.insert, hu, hmContains, hfree]

theorem insert_unnamed {c : Clients} {t : Token} {cl : Client}
    (hu : cl.username = none) :
    (c.insert t cl).1 = { c with data := hmInsert t cl c.data } := by
  simp [Clients.insert, hu]

theorem noFail_ok (d : Dest) : noFail.ok d = true := by
  cases d <;> rfl

theorem mkOut_noFail (d : Dest) (m : ServerToClientMsg) :
    mkOut noFail d m = { dest := d, msg := m, delivered := true } := by
  simp [mkOut, noFail_ok]

theorem broadcastOuts_noFail (fromU m : String) (l : List (Token × Client)) :
    broadcastOuts noFail fromU m l =
      (l.map (fun q =>
        { dest := .toPeer q.1, msg := .Message fromU m, delivered := true }),
       true) := by
  induction l with
  | nil => rfl
  | cons q rest ih => simp [broadcastOuts, mkOut_noFail, ih]

theorem mem_insertSorted {a x : String} {l : List String} :
    a ∈ insertSorted x l ↔ a = x ∨ a ∈ l := by
  induction l with
  | nil => simp [insertSorted]
  | cons y ys ih =>
    by_cases h : x ≤ y
    · simp [insertSorted, h]
    · simp only [insertSorted, if_neg h, List.mem_cons, ih]
      tauto

theorem mem_sortStrings {a : String} {l : List String} :
    a ∈ sortStrings l ↔ a ∈ l := by
  induction l with
  | nil => simp [sortStrings]
  | cons x xs ih => simp [sortStrings, mem_insertSorted, ih]

theorem processLoop_some_eq {f : FailSpec} {clients : Clients} {cl cl' : Client}
    {ins : List ReadResult}
    (h : (processLoop f clients cl ins).1 = some cl') : cl' = cl := by
  induction ins with
  | nil =>
    simp [processLoop] at h
    exact h.symm
  | cons r rest ih =>
    cases r with
    | eof => simp [processLoop] at h
    | ioErr => simp [processLoop] at h
    | wouldBlock =>
      simp [processLoop] at h
      exact h.symm
    | msg m =>
      cases m with
      | Join name => simp [processLoop] at h
      | Ping =>
        simp only [processLoop] at h
        split at h
        · exact ih h
        · simp at h
      | ListUsers =>
        simp only [processLoop] at h
        split at h
        · exact ih h
        · simp at h
      | SendDM toU msgText =>
        simp only [processLoop] at h
        split at h
        · split at h
          · exact ih h
          · simp at h
        · split at h
          · split at h
            · exact ih h
            · simp at h
          · split at h
            · exact ih h
            · simp at h
      | Broadcast msgText =>
        simp only [processLoop] at h
        split at h
        · exact ih h
        · simp at h

theorem handleClient_some {f : FailSpec} {clients : Clients} {cl cl' : Client}
    {ins : List ReadResult}
    (h : (handleClient f clients cl ins).1 = some cl') :
    cl' = cl ∨ (cl.username = none ∧ ∃ name, cl' = cl.set_username name) := by
  rcases hu : cl.username with _ | u
  · rw [handleClient.eq_def] at h
    rw [hu] at h
    cases ins with
    | nil =>
      simp at h
      exact Or.inl h.symm
    | cons r rest =>
      cases r with
      | eof => simp at h
      | ioErr => simp at h
      | wouldBlock =>
        simp at h
        exact Or.inl h.symm
      | msg m =>
        cases m with
        | Join name =>
          simp only at h
          split at h
          · simp at h
          · split at h
            · have := processLoop_some_eq h
              exact Or.inr ⟨rfl, name, this⟩
            · simp at h
        | Ping => simp at h
        | ListUsers => simp at h
        | SendDM a b => simp at h
        | Broadcast a => simp at h
  · rw [handleClient.eq_def] at h
    rw [hu] at h
    exact Or.inl (processLoop_some_eq h)

theorem handleClient_loggedIn {f : FailSpec} {clients : Clients} {cl cl' : Client}
    {ins : List ReadResult}
    (h : (handleClient f clients cl ins).1 = some cl') :
    cl'.loggedIn = cl.loggedIn := by
  rcases handleClient_some h with h | ⟨_, name, h⟩
  · rw [h]
  · rw [h, Client.set_username]

/-- Normal form of a readiness step for a live session. -/
theorem step_ready_eval {maxC : Nat} {s : ServerSt} {a : Token} {cl : Client}
    {f : FailSpec} {ins : List ReadResult}
    (hg : hmGet a s.clients.data = some cl) :
    step maxC s (.ready a f ins) =
      ({ clients :=
           match (handleClient f (s.clients.remove a).1 cl ins).1 with
           | some cl' => ((s.clients.remove a).1.insert a cl').1
           | none => (s.clients.remove a).1,
         now := s.now },
       (handleClient f (s.clients.remove a).1 cl ins).2.map (liftOut a)) := by
  rcases hrem : s.clients.remove a with ⟨c', ocl⟩
  have h2 : ocl = some cl := by
    have hs := remove_snd s.clients a
    rw [hrem] at hs
    simpa [hg] using hs
  subst h2
  simp [step, hrem]

/-- The `week10` registry (`src/week10/src/client.rs`): usernames mapped to
the session's tokio mpsc `Sender`, modelled by a channel id. -/
structure ClientsW10 where
  clients : List (String × Nat)
deriving DecidableEq

/-- `Clients::add_client` from week10 — the spec's `try_add`.  Returns `true`
when the username was already taken (the caller then disconnects the joining
client with "Username already taken"); otherwise it inserts and returns
`HashMap::insert(..).is_some()`, the presence of a previous binding, which in
this branch is `false`. -/
def ClientsW10.add_client (c : ClientsW10) (username : String) (sender : Nat) :
    ClientsW10 × Bool :=
  if hmContains username c.clients then (c, true)
  else (⟨hmInsert username sender c.clients⟩, (hmGet username c.clients).isSome)

/-- `Clients::remove_client` from week10. -/
def ClientsW10.remove_client (c : ClientsW10) (username : String) : ClientsW10 :=
  ⟨hmErase username c.clients⟩

/-- `Clients::get_client` from week10. -/
def ClientsW10.get_client (c : ClientsW10) (username : String) : Option Nat :=
  hmGet username c.clients

theorem sender_name_free {s : ServerSt} {a : Token} {u : String} {lg : Nat}
    (hg : hmGet a s.clients.data = some { username := some u, loggedIn := lg }) :
    hmGet u (s.clients.remove a).1.usernames = none := by
  rw [usernames_remove_named hg rfl, hmGet_erase_self]

/-- A readiness step in which the unauthenticated session at `a` sends a
`Join` for a free name: the session is named, welcomed and re-registered. -/
theorem ready_join_success {maxC : Nat} {s : ServerSt} {a : Token} {lg : Nat}
    (name : String)
    (hg : hmGet a s.clients.data = some { username := none, loggedIn := lg })
    (hfree : s.clients.existsName name = false) :
    step maxC s (.ready a noFail [.msg (.Join name), .wouldBlock]) =
      ({ clients :=
           { usernames := hmInsert name a (s.clients.remove a).1.usernames,
             data := hmInsert a { username := some name, loggedIn := lg }
                       (s.clients.remove a).1.data },
         now := s.now },
       [{ toTok := a, msg := .Welcome, delivered := true }]) := by
  rw [step_ready_eval hg]
  have husr : (s.clients.remove a).1.usernames = s.clients.usernames :=
    usernames_remove_unnamed hg rfl
  have hfree' : (s.clients.remove a).1.existsName name = false := by
    rw [Clients.existsName, husr]
    exact hfree
  simp only [handleClient, hfree', Bool.false_eq_true, if_neg, ite_false,
    Client.set_username, mkOut_noFail, processLoop]
  simp only [Clients.insert, hmContains, Clients.existsName] at hfree' ⊢
  simp [liftOut, hfree']

/-- A readiness step in which the unauthenticated session at `a` sends a
`Join` for a name that is taken: error reply, session dropped. -/
theorem ready_join_taken {maxC : Nat} {s : ServerSt} {a : Token} {lg : Nat}
    (name : String)
    (hg : hmGet a s.clients.data = some { username := none, loggedIn := lg })
    (htaken : s.clients.existsName name = true) :
    step maxC s (.ready a noFail [.msg (.Join name), .wouldBlock]) =
      ({ clients := (s.clients.remove a).1, now := s.now },
       [{ toTok := a, msg := .Error "Username already taken", delivered := true }]) := by
  rw [step_ready_eval hg]
  have husr : (s.clients.remove a).1.usernames = s.clients.usernames :=
    usernames_remove_unnamed hg rfl
  have htaken' : (s.clients.remove a).1.existsName name = true := by
    rw [Clients.existsName, husr]
    exact htaken
  simp only [handleClient, htaken', mkOut_noFail]
  simp [liftOut]

/-- A readiness step in which the named session at `a` reaches EOF: the
session is dropped silently (`disconnect(None)`), no message is sent. -/
theorem ready_eof {maxC : Nat} {s : ServerSt} {a : Token} {u : String}
    {lg : Nat} {f : FailSpec}
    (hg : hmGet a s.clients.data = some { username := some u, loggedIn := lg }) :
    step maxC s (.ready a f [.eof]) =
      ({ clients := (s.clients.remove a).1, now := s.now }, []) := by
  rw [step_ready_eval hg]
  simp [handleClient, processLoop]

/-- A readiness step in which the named session at `a` sends a DM to itself. -/
theorem step_dm_self {maxC : Nat} {s : ServerSt} {a : Token} {u m : String}
    {lg : Nat}
    (hg : hmGet a s.clients.data = some { username := some u, loggedIn := lg }) :
    step maxC s (.ready a noFail [.msg (.SendDM u m), .wouldBlock]) =
      ({ clients :=
           { usernames := hmInsert u a (s.clients.remove a).1.usernames,
             data := hmInsert a { username := some u, loggedIn := lg }
                       (s.clients.remove a).1.data },
         now := s.now },
       [{ toTok := a, msg := .Error "Cannot send a DM to yourself",
          delivered := true }]) := by
  rw [step_ready_eval hg]
  have hfree := sender_name_free hg
  simp only [handleClient, processLoop, Option.getD_some, if_pos rfl, mkOut_noFail]
  simp only [Clients.insert, hmContains]
  simp [liftOut, hfree]

/-- A readiness step in which the named session at `a` sends a DM to a
username that resolves (after the sender's own removal) to token `b`, and
the write to `b` succeeds. -/
theorem step_dm_known {maxC : Nat} {s : ServerSt} {a b : Token}
    {u toU m : String} {lg : Nat}
    (hg : hmGet a s.clients.data = some { username := some u, loggedIn := lg })
    (hne : toU ≠ u)
    (hb : (s.clients.remove a).1.getTok toU = some b) :
    step maxC s (.ready a noFail [.msg (.SendDM toU m), .wouldBlock]) =
      ({ clients :=
           { usernames := hmInsert u a (s.clients.remove a).1.usernames,
             data := hmInsert a { username := some u, loggedIn := lg }
                       (s.clients.remove a).1.data },
         now := s.now },
       [{ toTok := b, msg := .Message u m, delivered := true }]) := by
  rw [step_ready_eval hg]
  have hfree := sender_name_free hg
  simp only [handleClient, processLoop, Option.getD_some, if_neg hne, hb, mkOut_noFail]
  simp only [Clients.insert, hmContains]
  simp [liftOut, hfree]

/-- A readiness step in which the named session at `a` sends a DM to a
username that resolves to token `b`, and the write to `b` FAILS: the sender's
`handle_client` aborts (`.ok()?`), the sender is not re-inserted, and the
only write attempt is the failed one to `b`. -/
theorem step_dm_known_fail {maxC : Nat} {s : ServerSt} {a b : Token}
    {u toU m : String} {lg : Nat} {f : FailSpec}
    (hg : hmGet a s.clients.data = some { username := some u, loggedIn := lg })
    (hne : toU ≠ u)
    (hb : (s.clients.remove a).1.getTok toU = some b)
    (hfail : f.peerF b = true) :
    step maxC s (.ready a f [.msg (.SendDM toU m), .wouldBlock]) =
      ({ clients := (s.clients.remove a).1, now := s.now },
       [{ toTok := b, msg := .Message u m, delivered := false }]) := by
  rw [step_ready_eval hg]
  simp only [handleClient, processLoop, Option.getD_some, if_neg hne, hb,
    mkOut, FailSpec.ok, hfail]
  simp [liftOut]

/-- A readiness step in which the named session at `a` sends a DM to a
username that does not resolve to any session. -/
theorem step_dm_unknown {maxC : Nat} {s : ServerSt} {a : Token}
    {u toU m : String} {lg : Nat}
    (hg : hmGet a s.clients.data = some { username := some u, loggedIn := lg })
    (hne : toU ≠ u)
    (hb : (s.clients.remove a).1.getTok toU = none) :
    step maxC s (.ready a noFail [.msg (.SendDM toU m), .wouldBlock]) =
      ({ clients :=
           { usernames := hmInsert u a (s.clients.remove a).1.usernames,
             data := hmInsert a { username := some u, loggedIn := lg }
                       (s.clients.remove a).1.data },
         now := s.now },
       [{ toTok := a, msg := .Error ("User " ++ toU ++ " does not exist"),
          delivered := true }]) := by
  rw [step_ready_eval hg]
  have hfree := sender_name_free hg
  simp only [handleClient, processLoop, Option.getD_some, if_neg hne, hb, mkOut_noFail]
  simp only [Clients.insert, hmContains]
  simp [liftOut, hfree]

/-- A readiness step in which the named session at `a` broadcasts: one
`Message` per named registry client (the sender is absent from the registry
while being handled). -/
theorem step_broadcast {maxC : Nat} {s : ServerSt} {a : Token} {u m : String}
    {lg : Nat}
    (hg : hmGet a s.clients.data = some { username := some u, loggedIn := lg }) :
    step maxC s (.ready a noFail [.msg (.Broadcast m), .wouldBlock]) =
      ({ clients :=
           { usernames := hmInsert u a (s.clients.remove a).1.usernames,
             data := hmInsert a { username := some u, loggedIn := lg }
                       (s.clients.remove a).1.data },
         now := s.now },
       (s.clients.remove a).1.namedList.map (fun q =>
         { toTok := q.1, msg := .Message u m, delivered := true })) := by
  rw [step_ready_eval hg]
  have hfree := sender_name_free hg
  simp only [handleClient, processLoop, Option.getD_some, broadcastOuts_noFail]
  simp only [Clients.insert, hmContains]
  simp [liftOut, hfree, List.map_map, Function.comp]

/-- A readiness step in which the named session at `a` asks for the user
list: the reply is the registry usernames (sender excluded while handled)
plus the sender's own name, sorted. -/
theorem step_listusers {maxC : Nat} {s : ServerSt} {a : Token} {u : String}
    {lg : Nat}
    (hg : hmGet a s.clients.data = some { username := some u, loggedIn := lg }) :
    step maxC s (.ready a noFail [.msg .ListUsers, .wouldBlock]) =
      ({ clients :=
           { usernames := hmInsert u a (s.clients.remove a).1.usernames,
             data := hmInsert a { username := some u, loggedIn := lg }
                       (s.clients.remove a).1.data },
         now := s.now },
       [{ toTok := a,
          msg := .UserList
            (sortStrings ((s.clients.remove a).1.get_usernames_list ++ [u])),
          delivered := true }]) := by
  rw [step_ready_eval hg]
  have hfree := sender_name_free hg
  simp only [handleClient, processLoop, Option.getD_some, mkOut_noFail]
  simp only [Clients.insert, hmContains]
  simp [liftOut, hfree]

theorem remove_eq_of_get_some {c : Clients} {t : Token} {cl : Client}
    (hg : hmGet t c.data = some cl) :
    c.remove t =
      ({ usernames :=
           match cl.username with
           | some u => hmErase u c.usernames
           | none => c.usernames,
         data := hmErase t c.data }, some cl) := by
  rw [Clients.remove.eq_def, hg]

theorem remove_data_of_get_some {c : Clients} {t : Token} {cl : Client}
    (hg : hmGet t c.data = some cl) :
    (c.remove t).1.data = hmErase t c.data := by
  rw [remove_eq_of_get_some hg]

theorem removeAll_get_not_mem {c : Clients} {ts : List Token} {t : Token}
    (h : t ∉ ts) : hmGet t (removeAll c ts).1.data = hmGet t c.data := by
  induction ts generalizing c with
  | nil => simp [removeAll]
  | cons t' ts' ih =>
    simp only [List.mem_cons, not_or] at h
    rcases hr : c.remove t' with ⟨c', ocl⟩
    cases ocl with
    | none =>
      simp only [removeAll, hr]
      exact ih h.2
    | some cl =>
      simp only [removeAll, hr]
      rw [ih h.2]
      have hne := @get_data_remove_ne c t t' h.1
      rwa [hr] at hne

theorem removeAll_usernames_unchanged {c : Clients} {ts : List Token}
    (hall : ∀ t ∈ ts, ∀ cl, hmGet t c.data = some cl → cl.username = none) :
    (removeAll c ts).1.usernames = c.usernames := by
  induction ts generalizing c with
  | nil => simp [removeAll]
  | cons t' ts' ih =>
    rcases hr : c.remove t' with ⟨c', ocl⟩
    cases ocl with
    | none =>
      simp only [removeAll, hr]
      exact ih (fun t ht cl hcl => hall t (List.mem_cons_of_mem _ ht) cl hcl)
    | some cl =>
      have hg : hmGet t' c.data = some cl := by
        have := remove_snd c t'
        rw [hr] at this
        exact this.symm
      have hu : cl.username = none := hall t' (List.mem_cons_self _ _) cl hg
      have husr : c'.usernames = c.usernames := by
        have := usernames_remove_unnamed hg hu
        rwa [hr] at this
      have hdat : c'.data = hmErase t' c.data := by
        have := remove_data_of_get_some hg
        rwa [hr] at this
      have hprem : ∀ t ∈ ts', ∀ cl2, hmGet t c'.data = some cl2 →
          cl2.username = none := by
        intro t ht cl2 hcl2
        rw [hdat] at hcl2
        by_cases hne : t = t'
        · rw [hne, hmGet_erase_self] at hcl2
          cases hcl2
        · rw [hmGet_erase_ne hne] at hcl2
          exact hall t (List.mem_cons_of_mem _ ht) cl2 hcl2
      simp only [removeAll, hr]
      rw [ih hprem, husr]

theorem removeAll_get_mem_none {c : Clients} {ts : List Token} {t : Token}
    (hn : ts.Nodup) (h : t ∈ ts)
    (hall : ∀ t' ∈ ts, (hmGet t' c.data).isSome) :
    hmGet t (removeAll c ts).1.data = none := by
  induction ts generalizing c with
  | nil => cases h
  | cons t' ts' ih =>
    rcases hsome : hmGet t' c.data with _ | cl
    · have := hall t' (List.mem_cons_self _ _)
      rw [hsome] at this
      cases this
    · rcases hr : c.remove t' with ⟨c', ocl⟩
      have hocl : ocl = some cl := by
        have := remove_snd c t'
        rw [hr] at this
        simp only at this
        rw [this, hsome]
      subst hocl
      simp only [removeAll, hr]
      have hdat : c'.data = hmErase t' c.data := by
        have := remove_data_of_get_some hsome
        rwa [hr] at this
      have hall' : ∀ t2 ∈ ts', (hmGet t2 c'.data).isSome := by
        intro t2 ht2
        have hne : t2 ≠ t' := by
          intro hc
          subst hc
          exact (List.nodup_cons.mp hn).1 ht2
        rw [hdat, hmGet_erase_ne hne]
        exact hall t2 (List.mem_cons_of_mem _ ht2)
      rcases List.mem_cons.mp h with h | h
      · subst h
        rw [removeAll_get_not_mem (List.nodup_cons.mp hn).1]
        rw [hdat, hmGet_erase_self]
      · exact ih (List.nodup_cons.mp hn).2 h hall'

theorem removeAll_deliveries {c : Clients} {ts : List Token}
    (hn : ts.Nodup)
    (hall : ∀ t' ∈ ts, (hmGet t' c.data).isSome) :
    (removeAll c ts).2 = ts.map (fun t =>
      { toTok := t, msg := .Error "Timed out waiting for Join",
        delivered := true }) := by
  induction ts generalizing c with
  | nil => simp [removeAll]
  | cons t' ts' ih =>
    rcases hsome : hmGet t' c.data with _ | cl
    · have := hall t' (List.mem_cons_self _ _)
      rw [hsome] at this
      cases this
    · rcases hr : c.remove t' with ⟨c', ocl⟩
      have hocl : ocl = some cl := by
        have := remove_snd c t'
        rw [hr] at this
        simp only at this
        rw [this, hsome]
      subst hocl
      simp only [removeAll, hr, List.map_cons]
      have hdat : c'.data = hmErase t' c.data := by
        have := remove_data_of_get_some hsome
        rwa [hr] at this
      congr 1
      refine ih (List.nodup_cons.mp hn).2 ?_
      intro t2 ht2
      have hne : t2 ≠ t' := by
        intro hc
        subst hc
        exact (List.nodup_cons.mp hn).1 ht2
      rw [hdat, hmGet_erase_ne hne]
      exact hall t2 (List.mem_cons_of_mem _ ht2)

theorem sweepTokens_nodup {s : ServerSt}
    (h4 : (hmKeys s.clients.data).Nodup) : (sweepTokens s).Nodup :=
  ((List.filter_sublist _).map Prod.fst).nodup h4

theorem mem_sweepTokens_intro {s : ServerSt} {t : Token} {cl : Client}
    (hg : hmGet t s.clients.data = some cl) (hu : cl.username = none)
    (hto : TIMEOUT_DURATION ≤ cl.active s.now) : t ∈ sweepTokens s := by
  have hmem := mem_of_hmGet_eq_some hg
  simp only [sweepTokens, hmKeys, List.mem_map]
  refine ⟨(t, cl), List.mem_filter.mpr ⟨hmem, ?_⟩, rfl⟩
  simp [hu, hto]

theorem mem_sweepTokens_elim {s : ServerSt} {t : Token}
    (h4 : (hmKeys s.clients.data).Nodup) (h : t ∈ sweepTokens s) :
    ∃ cl, hmGet t s.clients.data = some cl ∧ cl.username = none ∧
      TIMEOUT_DURATION ≤ cl.active s.now := by
  simp only [sweepTokens, hmKeys, List.mem_map] at h
  obtain ⟨q, hq, hfst⟩ := h
  rw [List.mem_filter] at hq
  obtain ⟨hqd, hp⟩ := hq
  simp only [Bool.and_eq_true, Option.isNone_iff_eq_none, decide_eq_true_eq] at hp
  refine ⟨q.2, ?_, hp.1, hp.2⟩
  rw [← hfst]
  obtain ⟨t0, cl0⟩ := q
  exact hmGet_eq_some_of_mem h4 hqd

theorem getTok_after_remove_named {s : ServerSt} {a b : Token}
    {u v : String} {lg : Nat} (hinv : RegInv s.clients)
    (hg : hmGet a s.clients.data = some { username := some u, loggedIn := lg })
    (hne : v ≠ u) (hb : hmGet v s.clients.usernames = some b) :
    (s.clients.remove a).1.getTok v = some b ∧ b ≠ a := by
  obtain ⟨clb, hclb, hclbu⟩ := hinv.lookup_user hb
  have hba : b ≠ a := by
    intro hc
    rw [hc, hg] at hclb
    injection hclb with he
    rw [← he] at hclbu
    simp only at hclbu
    injection hclbu with he2
    exact hne he2.symm
  have husr : (s.clients.remove a).1.usernames = hmErase u s.clients.usernames :=
    usernames_remove_named hg rfl
  have h1 : hmGet v (s.clients.remove a).1.usernames = some b := by
    rw [husr, hmGet_erase_ne hne]
    exact hb
  have h2 : hmGet b (s.clients.remove a).1.data = some clb := by
    rw [get_data_remove_ne hba]
    exact hclb
  exact ⟨by simp [Clients.getTok, h1, h2], hba⟩

theorem getTok_after_remove_unknown {s : ServerSt} {a : Token}
    {u v : String} {lg : Nat}
    (hg : hmGet a s.clients.data = some { username := some u, loggedIn := lg })
    (hne : v ≠ u) (hb : hmGet v s.clients.usernames = none) :
    (s.clients.remove a).1.getTok v = none := by
  have husr : (s.clients.remove a).1.usernames = hmErase u s.clients.usernames :=
    usernames_remove_named hg rfl
  have h1 : hmGet v (s.clients.remove a).1.usernames = none := by
    rw [husr, hmGet_erase_ne hne]
    exact hb
  simp [Clients.getTok, h1]

/-- Claim C8, counterexample: on an empty week10 registry, `add_client`
("try_add") successfully inserts "alice" — the entry appears in the registry
— yet it returns `false`.  The claim that the boolean result is "whether the
insertion succeeded (false meaning the name was taken)" is therefore false
at this input: the name was free, the insertion succeeded, and the result is
`false`. -/
theorem C8_try_add_cex :
    (ClientsW10.add_client { clients := [] } "alice" 0).2 = false ∧
    (ClientsW10.add_client { clients := [] } "alice" 0).1.get_client "alice" =
      some 0 := by
  constructor <;> decide

/-- Claim C8 amended: week10's `add_client` inserts iff no entry for the
username exists and leaves the registry unchanged when the name is taken,
but its boolean result is whether the name was ALREADY TAKEN (`true` =
taken) — the negation of the claimed "insertion succeeded" convention. -/
theorem C8_try_add_amended (c : ClientsW10) (username : String) (sender : Nat) :
    (c.add_client username sender).2 = hmContains username c.clients ∧
    ((c.add_client username sender).2 = true →
      (c.add_client username sender).1 = c) ∧
    ((c.add_client username sender).2 = false →
      (c.add_client username sender).1.clients =
        hmInsert username sender c.clients) := by
  by_cases h : hmContains username c.clients = true
  · refine ⟨?_, ?_, ?_⟩ <;> simp [ClientsW10.add_client, h]
  · have h' : hmContains username c.clients = false := by
      simpa using h
    refine ⟨?_, ?_, ?_⟩ <;>
      simp [ClientsW10.add_client, h', hmContains] at h' ⊢ <;>
      simp [h']

/-- Witness for C8's amended theorem at a concrete registry. -/
theorem C8_try_add_amended_witness :
    (ClientsW10.add_client { clients := [("bob", 1)] } "alice" 2).1.clients =
      hmInsert "alice" 2 [("bob", 1)] :=
  (C8_try_add_amended { clients := [("bob", 1)] } "alice" 2).2.2 (by decide)

/-- The concrete week09 state used for claim C2: one unauthenticated
session at token 3. -/
def c2State : ServerSt :=
  { clients :=
      { usernames := [],
        data := [(3, { username := none, loggedIn := 0 })] },
    now := 0 }

/-- Claim C2, counterexample: a `Join` whose name is 16 UTF-8 bytes long is
NOT rejected by the server: it is welcomed (`Welcome`, not `Error`), the
session survives, and the 16-byte name is registered.  No name-length check
exists in `handle_client`. -/
theorem C2_name_length_cex :
    "0123456789abcdef".utf8ByteSize = 16 ∧
    step 10 c2State (.ready 3 noFail [.msg (.Join "0123456789abcdef"), .wouldBlock]) =
      ({ clients :=
           { usernames := [("0123456789abcdef", 3)],
             data := [(3, { username := some "0123456789abcdef", loggedIn := 0 })] },
         now := 0 },
       [{ toTok := 3, msg := .Welcome, delivered := true }]) := by
  constructor
  · decide
  · decide

/-- Claim C2 amended: the name length limit is not enforced.  In the
Connected (unauthenticated) state a `Join` with ANY free name — names longer
than 15 UTF-8 bytes included — is accepted: the server replies `Welcome`
and registers the name for that session. -/
theorem C2_name_length_amended {maxC : Nat} {s : ServerSt} {a : Token}
    {lg : Nat} (name : String)
    (hg : hmGet a s.clients.data = some { username := none, loggedIn := lg })
    (hfree : s.clients.existsName name = false) :
    (step maxC s (.ready a noFail [.msg (.Join name), .wouldBlock])).2 =
      [{ toTok := a, msg := .Welcome, delivered := true }] ∧
    hmGet name
      (step maxC s (.ready a noFail [.msg (.Join name), .wouldBlock])).1.clients.usernames =
      some a := by
  rw [ready_join_success name hg hfree]
  exact ⟨rfl, hmGet_insert_self _ _ _⟩

/-- Witness for C2's amended theorem, at the 16-byte name itself. -/
theorem C2_name_length_amended_witness :
    hmGet "0123456789abcdef"
      (step 10 c2State
        (.ready 3 noFail [.msg (.Join "0123456789abcdef"), .wouldBlock])).1.clients.usernames =
      some 3 :=
  (@C2_name_length_amended 10 c2State 3 0 "0123456789abcdef" (by decide) (by decide)).2

/-- The concrete week09 state used for claim C9: one named session 100
seconds old, with no traffic ever. -/
def c9State : ServerSt :=
  { clients :=
      { usernames := [("alice", 1)],
        data := [(1, { username := some "alice", loggedIn := 0 })] },
    now := 100 }

/-- Claim C9, counterexample: the named session "alice" has had no traffic
for 100 seconds, yet the week09 server's timeout scan — the only timer-driven
disconnect the dispatcher has — removes nothing and sends nothing; and
processing an inbound `Ping` does not update any last-activity timestamp
(the only timestamp, `logged_in`, is the accept time and is never changed by
`handle_client`). -/
theorem C9_inactivity_cex :
    step 10 c9State .sweep = (c9State, []) ∧
    (handleClient noFail Clients.empty { username := some "alice", loggedIn := 0 }
        [.msg .Ping, .wouldBlock]).1 =
      some { username := some "alice", loggedIn := 0 } := by
  constructor <;> decide

/-- Claim C9 amended: the week09 server tracks no `last_activity` — the only
per-session timestamp is the accept time, which survives `handle_client`
unchanged — and its timeout scan disconnects only unauthenticated sessions
(the 2-second join timeout): a named session survives every sweep no matter
how long it has been silent.  (The week10 variant instead ends a named
session's loop when no select event — inbound OR outbound — arrives within
3 seconds.) -/
theorem C9_inactivity_amended {maxC : Nat} {s : ServerSt} {t : Token}
    {cl : Client} {u : String} (hinv : RegInv s.clients)
    (hg : hmGet t s.clients.data = some cl) (hu : cl.username = some u) :
    hmGet t (step maxC s .sweep).1.clients.data = some cl ∧
    (step maxC s .sweep).1.clients.usernames = s.clients.usernames ∧
    (∀ f clients ins cl', (handleClient f clients cl ins).1 = some cl' →
      cl'.loggedIn = cl.loggedIn) := by
  have hnotin : t ∉ sweepTokens s := by
    intro hmem
    obtain ⟨cl2, hg2, hu2, _⟩ := mem_sweepTokens_elim hinv.2.2.2 hmem
    rw [hg] at hg2
    injection hg2 with he
    rw [← he, hu] at hu2
    cases hu2
  refine ⟨?_, ?_, ?_⟩
  · simp only [step]
    rw [removeAll_get_not_mem hnotin]
    exact hg
  · simp only [step]
    refine removeAll_usernames_unchanged ?_
    intro t2 ht2 cl2 hcl2
    obtain ⟨cl3, hg3, hu3, _⟩ := mem_sweepTokens_elim hinv.2.2.2 ht2
    rw [hcl2] at hg3
    injection hg3 with he
    rw [he]
    exact hu3
  · intro f clients ins cl' h
    exact handleClient_loggedIn h

/-- Witness for C9's amended theorem at the concrete 100-second-idle state. -/
theorem C9_inactivity_amended_witness :
    hmGet 1 (step 10 c9State .sweep).1.clients.data =
      some { username := some "alice", loggedIn := 0 } :=
  (@C9_inactivity_amended 10 c9State 1
    { username := some "alice", loggedIn := 0 } "alice"
    (by decide) (by decide) rfl).1

/-- The concrete week09 registry used for claim C7: a named session at
token 7 and an unauthenticated one at token 5. -/
def c7Clients : Clients :=
  { usernames := [("alice", 7)],
    data := [(7, { username := some "alice", loggedIn := 0 }),
             (5, { username := none, loggedIn := 0 })] }

/-- Claim C7, counterexample: on shutdown the week09 server drains only the
NAMED sessions — `Clients::drain` walks the `usernames` map, so it yields
token 7 only, while the not-yet-named session at token 5 is not iterated and
stays behind — and `disconnect(None)` attempts NO final notification: the
shutdown step emits no deliveries at all. -/
theorem C7_shutdown_cex :
    c7Clients.drainNamed.2 = [7] ∧
    hmGet 5 c7Clients.drainNamed.1.data =
      some { username := none, loggedIn := 0 } ∧
    (step 10 { clients := c7Clients, now := 0 } .shutdown).2 = [] := by
  refine ⟨?_, ?_, ?_⟩ <;> decide

/-- Claim C7 amended: on the END shutdown event the server iterates and
closes exactly the NAMED sessions (those in the `usernames` map), sending no
final notification (`disconnect(None)`); unauthenticated sessions are not
iterated and remain in `data` until the process exits, and the username map
ends empty. -/
theorem C7_shutdown_amended {maxC : Nat} {s : ServerSt}
    (hinv : RegInv s.clients) :
    (∀ t : Token, t ∈ s.clients.drainNamed.2 ↔
      ∃ cl, hmGet t s.clients.data = some cl ∧ cl.username.isSome = true) ∧
    (step maxC s .shutdown).1.clients.usernames = [] ∧
    (step maxC s .shutdown).2 = [] := by
  refine ⟨?_, ?_, ?_⟩
  · intro t
    constructor
    · intro h
      simp only [Clients.drainNamed, List.mem_map] at h
      obtain ⟨p, hp, hsnd⟩ := h
      have hget : hmGet p.1 s.clients.usernames = some p.2 := by
        obtain ⟨u0, t0⟩ := p
        exact hmGet_eq_some_of_mem hinv.2.2.1 hp
      obtain ⟨cl, hcl, hu⟩ := hinv.lookup_user hget
      rw [hsnd] at hcl
      exact ⟨cl, hcl, by simp [hu]⟩
    · rintro ⟨cl, hcl, hu⟩
      rcases hx : cl.username with _ | u
      · rw [hx] at hu
        cases hu
      · have hreg := hinv.lookup_data hcl hx
        simp only [Clients.drainNamed, List.mem_map]
        exact ⟨(u, t), mem_of_hmGet_eq_some hreg, rfl⟩
  · simp [step, Clients.drainNamed]
  · simp [step]

/-- Witness for C7's amended theorem at the concrete two-session registry. -/
theorem C7_shutdown_amended_witness :
    (step 10 { clients := c7Clients, now := 0 } .shutdown).1.clients.usernames = [] :=
  (@C7_shutdown_amended 10 { clients := c7Clients, now := 0 } (by decide)).2.1

/-- The environment in which every socket write succeeds except writes to
the session at token `b`. -/
def failPeer (b : Token) : FailSpec :=
  { selfF := false, peerF := fun t => t == b }

/-- The concrete week09 state used for claim C6: named sessions "alice"
(token 1) and "bob" (token 2). -/
def c6State : ServerSt :=
  { clients :=
      { usernames := [("alice", 1), ("bob", 2)],
        data := [(1, { username := some "alice", loggedIn := 0 }),
                 (2, { username := some "bob", loggedIn := 0 })] },
    now := 0 }

/-- Claim C6, counterexample: alice DMs the registered target bob and the
write to bob fails.  The target bob is NOT disconnected — his registry entry
survives — and it is the SENDER alice whose session is torn down: she is
dropped from the registry (her `handle_client` aborts via `.ok()?`) with no
error reply.  Both "it triggers that target's own disconnect path" and "the
sender's session continues unaffected" are false at this input. -/
theorem C6_send_failure_cex :
    step 10 c6State (.ready 1 (failPeer 2) [.msg (.SendDM "bob" "hi"), .wouldBlock]) =
      ({ clients :=
           { usernames := [("bob", 2)],
             data := [(2, { username := some "bob", loggedIn := 0 })] },
         now := 0 },
       [{ toTok := 2, msg := .Message "alice" "hi", delivered := false }]) := by
  decide

/-- Claim C6 amended: in the week09 event-loop server, a failure is reported
to the sender only when the target is unknown (the "does not exist" error);
a write failure towards a known target is never surfaced to the sender as a
message — the only write attempt is the failed one to the target — but it
does NOT trigger the target's disconnect path: the target stays registered,
and instead the SENDER's own session is aborted and silently dropped from
the registry. -/
theorem C6_send_failure_amended {maxC : Nat} {s : ServerSt} {a b : Token}
    {u v : String} {lga lgb : Nat} (hinv : RegInv s.clients)
    (hga : hmGet a s.clients.data = some { username := some u, loggedIn := lga })
    (hgb : hmGet b s.clients.data = some { username := some v, loggedIn := lgb })
    (hne : v ≠ u) (m : String) :
    ((step maxC s (.ready a (failPeer b) [.msg (.SendDM v m), .wouldBlock])).1.clients.usernames =
        hmErase u s.clients.usernames ∧
     (step maxC s (.ready a (failPeer b) [.msg (.SendDM v m), .wouldBlock])).2 =
        [{ toTok := b, msg := .Message u m, delivered := false }] ∧
     hmGet v (step maxC s (.ready a (failPeer b) [.msg (.SendDM v m), .wouldBlock])).1.clients.usernames =
        some b) ∧
    (∀ w, w ≠ u → hmGet w s.clients.usernames = none →
      (step maxC s (.ready a noFail [.msg (.SendDM w m), .wouldBlock])).2 =
        [{ toTok := a, msg := .Error ("User " ++ w ++ " does not exist"),
           delivered := true }]) := by
  have hb0 : hmGet v s.clients.usernames = some b := hinv.lookup_data hgb rfl
  obtain ⟨hTok, hba⟩ := getTok_after_remove_named hinv hga hne hb0
  have hfail : (failPeer b).peerF b = true := by simp [failPeer]
  have husr : (s.clients.remove a).1.usernames = hmErase u s.clients.usernames :=
    usernames_remove_named hga rfl
  constructor
  · rw [step_dm_known_fail hga hne hTok hfail]
    refine ⟨husr, rfl, ?_⟩
    simp only [husr]
    rw [hmGet_erase_ne hne]
    exact hb0
  · intro w hw hwnone
    have hTok' := getTok_after_remove_unknown hga hw hwnone
    rw [step_dm_unknown hga hw hTok']

/-- Witness for C6's amended theorem at the concrete alice/bob state. -/
theorem C6_send_failure_amended_witness :
    (step 10 c6State (.ready 1 (failPeer 2) [.msg (.SendDM "bob" "x"), .wouldBlock])).2 =
      [{ toTok := 2, msg := .Message "alice" "x", delivered := false }] :=
  (@C6_send_failure_amended 10 c6State 1 2 "alice" "bob" 0 0
    (by decide) (by decide) (by decide) (by decide) "x").1.2.1

/-- Claim C3: every unauthenticated session whose connection is at least
`TIMEOUT_DURATION = 2` seconds old — in particular every connection that has
sent nothing for more than 2 seconds since accept — is removed by the
join-timeout scan and notified with the timeout `Error`; it was never in the
username registry (no username maps to its token) and the scan leaves the
username map untouched (no registry mutation). -/
theorem C3_join_timeout {maxC : Nat} {s : ServerSt} {t : Token} {cl : Client}
    (hinv : RegInv s.clients)
    (hg : hmGet t s.clients.data = some cl) (hun : cl.username = none)
    (hto : TIMEOUT_DURATION ≤ cl.active s.now) :
    hmGet t (step maxC s .sweep).1.clients.data = none ∧
    { toTok := t, msg := ServerToClientMsg.Error "Timed out waiting for Join",
      delivered := true } ∈ (step maxC s .sweep).2 ∧
    (step maxC s .sweep).1.clients.usernames = s.clients.usernames ∧
    (∀ u, hmGet u s.clients.usernames ≠ some t) := by
  have hmem : t ∈ sweepTokens s := mem_sweepTokens_intro hg hun hto
  have hnodup : (sweepTokens s).Nodup := sweepTokens_nodup hinv.2.2.2
  have hallSome : ∀ t' ∈ sweepTokens s, (hmGet t' s.clients.data).isSome := by
    intro t' ht'
    obtain ⟨cl2, hg2, _, _⟩ := mem_sweepTokens_elim hinv.2.2.2 ht'
    simp [hg2]
  refine ⟨?_, ?_, ?_, ?_⟩
  · simp only [step]
    exact removeAll_get_mem_none hnodup hmem hallSome
  · simp only [step]
    rw [removeAll_deliveries hnodup hallSome]
    exact List.mem_map.mpr ⟨t, hmem, rfl⟩
  · simp only [step]
    refine removeAll_usernames_unchanged ?_
    intro t2 ht2 cl2 hcl2
    obtain ⟨cl3, hg3, hu3, _⟩ := mem_sweepTokens_elim hinv.2.2.2 ht2
    rw [hcl2] at hg3
    injection hg3 with he
    rw [he]
    exact hu3
  · intro u hu
    obtain ⟨cl', hcl', hname⟩ := hinv.lookup_user hu
    rw [hg] at hcl'
    injection hcl' with he
    rw [← he, hun] at hname
    cases hname

/-- The concrete week09 state used in claim C3's witness: an unauthenticated
session at token 4, 5 seconds after accept. -/
def c3State : ServerSt :=
  { clients :=
      { usernames := [],
        data := [(4, { username := none, loggedIn := 0 })] },
    now := 5 }

/-- Witness for C3 at the concrete timed-out state. -/
theorem C3_join_timeout_witness :
    hmGet 4 (step 10 c3State .sweep).1.clients.data = none :=
  (@C3_join_timeout 10 c3State 4 { username := none, loggedIn := 0 }
    (by decide) (by decide) rfl (by decide)).1

/-- Claim C4: DM routing for the named session `u` at token `a`.
To itself: one `Error` reply ("Cannot send a DM to yourself") to the sender
and no delivery to anyone else.  To a registered username `v` at token `b`:
exactly one delivery, `Message{from := u, message}`, to `b` — which is not
the sender's token — and the sender receives nothing.  To an unknown
username: one `Error` reply ("User .. does not exist") to the sender.  In
all three cases the sender stays Named: it remains registered under `u` at
token `a` with its session intact. -/
theorem C4_dm_routing {maxC : Nat} {s : ServerSt} {a : Token}
    {u : String} {lg : Nat} (hinv : RegInv s.clients)
    (hg : hmGet a s.clients.data = some { username := some u, loggedIn := lg })
    (m : String) :
    ((step maxC s (.ready a noFail [.msg (.SendDM u m), .wouldBlock])).2 =
       [{ toTok := a, msg := .Error "Cannot send a DM to yourself",
          delivered := true }] ∧
     hmGet u (step maxC s (.ready a noFail [.msg (.SendDM u m), .wouldBlock])).1.clients.usernames =
       some a ∧
     hmGet a (step maxC s (.ready a noFail [.msg (.SendDM u m), .wouldBlock])).1.clients.data =
       some { username := some u, loggedIn := lg }) ∧
    (∀ v b, v ≠ u → hmGet v s.clients.usernames = some b →
      (step maxC s (.ready a noFail [.msg (.SendDM v m), .wouldBlock])).2 =
        [{ toTok := b, msg := .Message u m, delivered := true }] ∧
      b ≠ a ∧
      hmGet u (step maxC s (.ready a noFail [.msg (.SendDM v m), .wouldBlock])).1.clients.usernames =
        some a ∧
      hmGet a (step maxC s (.ready a noFail [.msg (.SendDM v m), .wouldBlock])).1.clients.data =
        some { username := some u, loggedIn := lg }) ∧
    (∀ v, v ≠ u → hmGet v s.clients.usernames = none →
      (step maxC s (.ready a noFail [.msg (.SendDM v m), .wouldBlock])).2 =
        [{ toTok := a, msg := .Error ("User " ++ v ++ " does not exist"),
           delivered := true }] ∧
      hmGet u (step maxC s (.ready a noFail [.msg (.SendDM v m), .wouldBlock])).1.clients.usernames =
        some a ∧
      hmGet a (step maxC s (.ready a noFail [.msg (.SendDM v m), .wouldBlock])).1.clients.data =
        some { username := some u, loggedIn := lg }) := by
  refine ⟨?_, ?_, ?_⟩
  · rw [step_dm_self hg]
    exact ⟨rfl, hmGet_insert_self _ _ _, hmGet_insert_self _ _ _⟩
  · intro v b hne hb
    obtain ⟨hTok, hba⟩ := getTok_after_remove_named hinv hg hne hb
    rw [step_dm_known hg hne hTok]
    exact ⟨rfl, hba, hmGet_insert_self _ _ _, hmGet_insert_self _ _ _⟩
  · intro v hne hb
    have hTok := getTok_after_remove_unknown hg hne hb
    rw [step_dm_unknown hg hne hTok]
    exact ⟨rfl, hmGet_insert_self _ _ _, hmGet_insert_self _ _ _⟩

/-- Witness for C4 at the concrete alice/bob state: alice's DM reaches
exactly bob. -/
theorem C4_dm_routing_witness :
    (step 10 c6State (.ready 1 noFail [.msg (.SendDM "bob" "hi"), .wouldBlock])).2 =
      [{ toTok := 2, msg := .Message "alice" "hi", delivered := true }] :=
  ((@C4_dm_routing 10 c6State 1 "alice" 0 (by decide) (by decide) "hi").2.1
    "bob" 2 (by decide) (by decide)).1

/-- Claim C5: a `Broadcast` from the named session `u` at token `a` delivers
`Message{from := u, message}` to every OTHER named registry client exactly
once each, delivers nothing to the sender itself, every emitted delivery is
such a `Message` and succeeds, and the sender stays Named. -/
theorem C5_broadcast_exclusion {maxC : Nat} {s : ServerSt} {a : Token}
    {u : String} {lg : Nat} (hinv : RegInv s.clients)
    (hg : hmGet a s.clients.data = some { username := some u, loggedIn := lg })
    (m : String) :
    (∀ b clb, b ≠ a → hmGet b s.clients.data = some clb →
      clb.username.isSome = true →
      (step maxC s (.ready a noFail [.msg (.Broadcast m), .wouldBlock])).2.countP
        (fun d => d.toTok == b) = 1) ∧
    (step maxC s (.ready a noFail [.msg (.Broadcast m), .wouldBlock])).2.countP
        (fun d => d.toTok == a) = 0 ∧
    (∀ d ∈ (step maxC s (.ready a noFail [.msg (.Broadcast m), .wouldBlock])).2,
      d.msg = .Message u m ∧ d.delivered = true) ∧
    hmGet u (step maxC s (.ready a noFail [.msg (.Broadcast m), .wouldBlock])).1.clients.usernames =
      some a ∧
    hmGet a (step maxC s (.ready a noFail [.msg (.Broadcast m), .wouldBlock])).1.clients.data =
      some { username := some u, loggedIn := lg } := by
  have hinv' : RegInv (s.clients.remove a).1 := hinv.remove a
  have hnd : (hmKeys (s.clients.remove a).1.data).Nodup := hinv'.2.2.2
  have hndn : (hmKeys (s.clients.remove a).1.namedList).Nodup :=
    ((List.filter_sublist _).map Prod.fst).nodup hnd
  rw [step_broadcast hg]
  refine ⟨?_, ?_, ?_, hmGet_insert_self _ _ _, hmGet_insert_self _ _ _⟩
  · intro b clb hba hgb hnamed
    have hgb' : hmGet b (s.clients.remove a).1.data = some clb := by
      rw [get_data_remove_ne hba]
      exact hgb
    have hmem : (b, clb) ∈ (s.clients.remove a).1.namedList :=
      List.mem_filter.mpr ⟨mem_of_hmGet_eq_some hgb', hnamed⟩
    have hkey : b ∈ hmKeys (s.clients.remove a).1.namedList := by
      simpa [hmKeys] using List.mem_map_of_mem Prod.fst hmem
    rw [List.countP_map]
    have hcomp : ((fun d : Delivery => d.toTok == b) ∘ (fun q : Token × Client =>
        ({ toTok := q.1, msg := .Message u m, delivered := true } : Delivery))) =
        fun q : Token × Client => q.1 == b := rfl
    rw [hcomp]
    have hcnt : List.countP (fun q : Token × Client => q.1 == b)
        (s.clients.remove a).1.namedList =
        List.count b (hmKeys (s.clients.remove a).1.namedList) := by
      rw [List.count, hmKeys, List.countP_map]
      rfl
    rw [hcnt]
    exact List.count_eq_one_of_mem hndn hkey
  · rw [List.countP_map]
    refine List.countP_eq_zero.mpr ?_
    intro q hq
    have hq' : q ∈ (s.clients.remove a).1.data := (List.mem_filter.mp hq).1
    have hqa : q.1 ≠ a := by
      intro hc
      obtain ⟨tq, clq⟩ := q
      simp only at hc
      subst hc
      have hgood := hmGet_eq_some_of_mem hnd hq'
      rw [get_data_remove_self] at hgood
      cases hgood
    simp [Function.comp, hqa]
  · intro d hd
    rw [List.mem_map] at hd
    obtain ⟨q, _, rfl⟩ := hd
    exact ⟨rfl, rfl⟩

/-- The concrete week09 state used in claim C5's witness: named sessions
alice (1), bob (2), carol (3). -/
def c5State : ServerSt :=
  { clients :=
      { usernames := [("alice", 1), ("bob", 2), ("carol", 3)],
        data := [(1, { username := some "alice", loggedIn := 0 }),
                 (2, { username := some "bob", loggedIn := 0 }),
                 (3, { username := some "carol", loggedIn := 0 })] },
    now := 0 }

/-- Witness for C5 at the three-client state: bob receives alice's broadcast
exactly once. -/
theorem C5_broadcast_exclusion_witness :
    (step 10 c5State (.ready 1 noFail [.msg (.Broadcast "m"), .wouldBlock])).2.countP
      (fun d => d.toTok == 2) = 1 :=
  (@C5_broadcast_exclusion 10 c5State 1 "alice" 0 (by decide) (by decide) "m").1
    2 { username := some "bob", loggedIn := 0 } (by decide) (by decide) rfl

/-- Claim C10 (implicit): in the week09 event-loop server a session whose
Join has not yet succeeded (username still `none`) is invisible to the
protocol of other clients: (1) no username resolves to its token, so it can
never be the target of a `SendDM` (`Clients::get_mut` draws from the
username map); (2) a `Broadcast` from any named session delivers nothing to
it (`Clients::named` filters it out); (3) every name in a `UserList` reply
is the name of some named session (`get_usernames_list` reads the username
map and the sender's own name is appended), so the unnamed session — which
has no name at all — never appears in one. -/
theorem C10_unnamed_invisible {maxC : Nat} {s : ServerSt} {t : Token}
    {lg : Nat} (hinv : RegInv s.clients)
    (hg : hmGet t s.clients.data = some { username := none, loggedIn := lg }) :
    (∀ u, s.clients.getTok u ≠ some t) ∧
    (∀ a u lga m, a ≠ t →
      hmGet a s.clients.data = some { username := some u, loggedIn := lga } →
      ∀ d ∈ (step maxC s (.ready a noFail [.msg (.Broadcast m), .wouldBlock])).2,
        d.toTok ≠ t) ∧
    (∀ a u lga, a ≠ t →
      hmGet a s.clients.data = some { username := some u, loggedIn := lga } →
      ∀ users,
        (step maxC s (.ready a noFail [.msg .ListUsers, .wouldBlock])).2 =
          [{ toTok := a, msg := .UserList users, delivered := true }] →
        ∀ x ∈ users, ∃ t' cl', hmGet t' s.clients.data = some cl' ∧
          cl'.username = some x) := by
  refine ⟨?_, ?_, ?_⟩
  · intro u hc
    have hu : hmGet u s.clients.usernames = some t := by
      rw [Clients.getTok.eq_def] at hc
      rcases hx : hmGet u s.clients.usernames with _ | t'
      · simp only [hx] at hc
        exact hc
      · simp only [hx] at hc
        rcases hy : hmGet t' s.clients.data with _ | cl2
        · simp only [hy] at hc
          cases hc
        · simp only [hy] at hc
          exact hc
    obtain ⟨cl', hcl', hname⟩ := hinv.lookup_user hu
    rw [hg] at hcl'
    injection hcl' with he
    rw [← he] at hname
    cases hname
  · intro a u lga m hat hga d hd
    have hinv' : RegInv (s.clients.remove a).1 := hinv.remove a
    rw [step_broadcast hga] at hd
    rw [List.mem_map] at hd
    obtain ⟨q, hq, rfl⟩ := hd
    obtain ⟨hq', hqn⟩ := List.mem_filter.mp hq
    obtain ⟨tq, clq⟩ := q
    simp only
    intro hc
    have hgood := hmGet_eq_some_of_mem hinv'.2.2.2 hq'
    rw [hc, get_data_remove_ne (Ne.symm hat), hg] at hgood
    injection hgood with he
    rw [← he] at hqn
    simp at hqn
  · intro a u lga hat hga users heq
    rw [step_listusers hga] at heq
    injection heq with h1 _
    injection h1 with _ h2
    injection h2 with h3
    intro x hx
    rw [← h3] at hx
    rw [mem_sortStrings, List.mem_append] at hx
    rcases hx with hx | hx
    · simp only [Clients.get_usernames_list, hmKeys, List.mem_map] at hx
      obtain ⟨p, hp, hfst⟩ := hx
      have husr : (s.clients.remove a).1.usernames =
          hmErase u s.clients.usernames := usernames_remove_named hga rfl
      rw [husr] at hp
      have hps : p ∈ s.clients.usernames := (mem_hmErase.mp hp).1
      have hget : hmGet p.1 s.clients.usernames = some p.2 := by
        obtain ⟨u0, t0⟩ := p
        exact hmGet_eq_some_of_mem hinv.2.2.1 hps
      obtain ⟨cl', hcl', hname⟩ := hinv.lookup_user hget
      rw [hfst] at hname
      exact ⟨p.2, cl', hcl', hname⟩
    · rw [List.mem_singleton] at hx
      subst hx
      exact ⟨a, { username := some x, loggedIn := lga }, hga, rfl⟩

/-- The concrete week09 state used in claim C10's witness: named alice at
token 1 and an unauthenticated session at token 5. -/
def c10State : ServerSt :=
  { clients :=
      { usernames := [("alice", 1)],
        data := [(1, { username := some "alice", loggedIn := 0 }),
                 (5, { username := none, loggedIn := 0 })] },
    now := 0 }

/-- Witness for C10: no username — not even "alice" — resolves a DM to the
unnamed session at token 5. -/
theorem C10_unnamed_invisible_witness :
    c10State.clients.getTok "alice" ≠ some 5 :=
  (@C10_unnamed_invisible 10 c10State 5 0 (by decide) (by decide)).1 "alice"

/-- Claim C1: registry-entry lifecycle.  (1) Every reachable server state
satisfies the registry invariant `RegInv`: each username is bound at most
once (the map is a function over nodup keys) and every binding points at a
live named session — so an entry exists only for sessions whose Join
succeeded.  (2) Two Joins with the same free name from two unauthenticated
sessions get exactly one success (`Welcome`, name registered to the first)
and one `Error "Username already taken"`, the loser being dropped.  (3) When
a named session disconnects, its registry entry is removed: the name is free
again and the session gone.  (4) Removal happens exactly once: removing an
absent session is a no-op on the registry. -/
theorem C1_registry_lifecycle :
    (∀ (maxClients : Nat) (s : ServerSt), Reach maxClients s →
      RegInv s.clients) ∧
    (∀ (maxClients : Nat) (s : ServerSt) (a b : Token) (lga lgb : Nat)
        (u : String), a ≠ b →
      hmGet a s.clients.data = some { username := none, loggedIn := lga } →
      hmGet b s.clients.data = some { username := none, loggedIn := lgb } →
      s.clients.existsName u = false →
      (step maxClients s (.ready a noFail [.msg (.Join u), .wouldBlock])).2 =
        [{ toTok := a, msg := .Welcome, delivered := true }] ∧
      (step maxClients
        (step maxClients s (.ready a noFail [.msg (.Join u), .wouldBlock])).1
        (.ready b noFail [.msg (.Join u), .wouldBlock])).2 =
        [{ toTok := b, msg := .Error "Username already taken",
           delivered := true }] ∧
      hmGet u (step maxClients
        (step maxClients s (.ready a noFail [.msg (.Join u), .wouldBlock])).1
        (.ready b noFail [.msg (.Join u), .wouldBlock])).1.clients.usernames =
        some a ∧
      hmGet b (step maxClients
        (step maxClients s (.ready a noFail [.msg (.Join u), .wouldBlock])).1
        (.ready b noFail [.msg (.Join u), .wouldBlock])).1.clients.data =
        none) ∧
    (∀ (maxClients : Nat) (s : ServerSt) (a : Token) (u : String) (lg : Nat)
        (f : FailSpec),
      hmGet a s.clients.data = some { username := some u, loggedIn := lg } →
      hmGet u (step maxClients s (.ready a f [.eof])).1.clients.usernames = none ∧
      hmGet a (step maxClients s (.ready a f [.eof])).1.clients.data = none) ∧
    (∀ (c : Clients) (t : Token), hmGet t c.data = none →
      c.remove t = (c, none)) := by
  refine ⟨?_, ?_, ?_, ?_⟩
  · intro maxClients s h
    exact reach_inv h
  · intro maxClients s a b lga lgb u hab hga hgb hfree
    have hstep1 := @ready_join_success maxClients s a lga u hga hfree
    have hw : (step maxClients s (.ready a noFail [.msg (.Join u), .wouldBlock])).2 =
        [{ toTok := a, msg := .Welcome, delivered := true }] := by
      rw [hstep1]
    have hs1u : (step maxClients s
        (.ready a noFail [.msg (.Join u), .wouldBlock])).1.clients.usernames =
        hmInsert u a (s.clients.remove a).1.usernames := by
      rw [hstep1]
    have hs1d : (step maxClients s
        (.ready a noFail [.msg (.Join u), .wouldBlock])).1.clients.data =
        hmInsert a { username := some u, loggedIn := lga }
          (s.clients.remove a).1.data := by
      rw [hstep1]
    have hgb1 : hmGet b (step maxClients s
        (.ready a noFail [.msg (.Join u), .wouldBlock])).1.clients.data =
        some { username := none, loggedIn := lgb } := by
      rw [hs1d, hmGet_insert_ne hab.symm, get_data_remove_ne (Ne.symm hab)]
      exact hgb
    have htaken : (step maxClients s
        (.ready a noFail [.msg (.Join u), .wouldBlock])).1.clients.existsName u =
        true := by
      rw [Clients.existsName, hmContains, hs1u, hmGet_insert_self]
      rfl
    have hstep2 := @ready_join_taken maxClients
      (step maxClients s (.ready a noFail [.msg (.Join u), .wouldBlock])).1
      b lgb u hgb1 htaken
    refine ⟨hw, by rw [hstep2], ?_, ?_⟩
    · rw [hstep2]
      have husr := usernames_remove_unnamed hgb1 rfl
      simp only [husr]
      rw [hs1u, hmGet_insert_self]
    · rw [hstep2]
      simp only [get_data_remove_self]
  · intro maxClients s a u lg f hg
    rw [ready_eof hg]
    exact ⟨sender_name_free hg, get_data_remove_self s.clients a⟩
  · intro c t h
    simp [Clients.remove, h]

/-- The concrete week09 state used in claim C1's witness: two
unauthenticated sessions. -/
def c1State : ServerSt :=
  { clients :=
      { usernames := [],
        data := [(1, { username := none, loggedIn := 0 }),
                 (2, { username := none, loggedIn := 0 })] },
    now := 0 }

/-- Witness for C1: in the concrete two-session race for "alice", the second
Join is answered with exactly one "Username already taken" error. -/
theorem C1_registry_lifecycle_witness :
    (step 10 (step 10 c1State
        (.ready 1 noFail [.msg (.Join "alice"), .wouldBlock])).1
      (.ready 2 noFail [.msg (.Join "alice"), .wouldBlock])).2 =
      [{ toTok := 2, msg := .Error "Username already taken",
         delivered := true }] :=
  (C1_registry_lifecycle.2.1 10 c1State 1 2 0 0 "alice"
    (by decide) (by decide) (by decide) (by decide)).2.1
